import Mathlib

/-!
Verification of the progress-assignment and persistence model of the
Yorlect Data-Curation application (src/app.py), as a shallow embedding:
the JSON progress store is an insertion-ordered association list (the
semantics of a Python dict), the page handlers are pure store
transformers, and Python runtime errors (ZeroDivisionError, IndexError)
are modelled by an Option-valued result.
-/

namespace DataCuration

/-- One entry of a user's translations map, as written at
src/app.py lines 138-142: source-sentence snapshot, submitted (stripped)
translation text, and submission timestamp. -/
structure TransEntry where
  english : String
  translation : String
  timestamp : String
deriving DecidableEq

/-- The metadata dict saved by the Metadata page (src/app.py lines 66-72). -/
structure Metadata where
  name : String
  sex : String
  age : Nat
  gmail : String
  country : String
deriving DecidableEq

/-- An in-memory user record with all four fields present, as every record
produced by load_user_progress is after its defaulting pass.
metadata = none models the empty metadata dict. -/
structure Record where
  translations : List (String × TransEntry)
  metadata : Option Metadata
  assigned : List Nat
  index : Nat
deriving DecidableEq

/-- A user record as it sits in the JSON progress file: any of the four
fields may be absent (none), which is what the defaulting pass of
load_user_progress (src/app.py lines 30-38) repairs. -/
structure StoredRecord where
  translations : Option (List (String × TransEntry))
  metadata : Option (Option Metadata)
  assigned : Option (List Nat)
  index : Option Nat
deriving DecidableEq

/-- The in-memory progress store: username-keyed, insertion ordered. -/
abbrev Store := List (String × Record)

/-- The progress file contents: username-keyed stored records. -/
abbrev StoredFile := List (String × StoredRecord)

/-- Python dict lookup d.get(u) on an insertion-ordered association list. -/
def dictGet {α : Type} : List (String × α) → String → Option α
  | [], _ => none
  | (k, v) :: rest, u => if k = u then some v else dictGet rest u

/-- Python dict assignment d[u] = v: overwrites in place if the key is
present, appends at the end otherwise. -/
def dictSet {α : Type} : List (String × α) → String → α → List (String × α)
  | [], u, v => [(u, v)]
  | (k, w) :: rest, u, v =>
    if k = u then (k, v) :: rest else (k, w) :: dictSet rest u v

/-- Python list.index: zero-based position of the first occurrence
(callers below only use it on lists that contain the element). -/
def listIndexOf (u : String) : List String → Nat
  | [] => 0
  | k :: rest => if k = u then 0 else listIndexOf u rest + 1

/-- Python str.strip(): drop leading and trailing whitespace (modelled on
the ASCII whitespace classifier; structural recursion over the character
list so that concrete inputs evaluate). -/
def pyStrip (s : String) : String :=
  ⟨((s.data.dropWhile Char.isWhitespace).reverse.dropWhile Char.isWhitespace).reverse⟩

/-- The defaulting pass of load_user_progress (src/app.py lines 30-38):
any missing field of a loaded record is filled in place with the empty
container (or zero), so no later field access can raise a KeyError. -/
def fixRecord (d : StoredRecord) : Record :=
  { translations := d.translations.getD []
    metadata := d.metadata.getD none
    assigned := d.assigned.getD []
    index := d.index.getD 0 }

/-- load_user_progress (src/app.py lines 24-40); the argument none models
a missing progress file, which loads as the empty store. -/
def load_user_progress : Option StoredFile → Store
  | none => []
  | some data => data.map fun p => (p.1, fixRecord p.2)

/-- Serialization of one in-memory record: json.dump writes every field. -/
def storeRecord (r : Record) : StoredRecord :=
  { translations := some r.translations
    metadata := some r.metadata
    assigned := some r.assigned
    index := some r.index }

/-- save_user_progress (src/app.py lines 42-44): whole-store rewrite. -/
def save_user_progress (data : Store) : StoredFile :=
  data.map fun p => (p.1, storeRecord p.2)

/-- A stored record with all four fields present (a well-formed record). -/
def wellFormedRec (d : StoredRecord) : Prop :=
  d.translations.isSome ∧ d.metadata.isSome ∧ d.assigned.isSome ∧ d.index.isSome

/-- The fresh record created on a first Translate visit (src/app.py lines
91-96).  A metadata-only record written by the Metadata page also reloads
as this record with its metadata field set, via fixRecord. -/
def emptyRecord : Record :=
  { translations := [], metadata := none, assigned := [], index := 0 }

/-- src/app.py lines 90-96: create the user's record if absent.  A new
dict key is appended, so the new user is last in key enumeration order. -/
def ensureUser (store : Store) (u : String) : Store :=
  if (dictGet store u).isSome then store else store ++ [(u, emptyRecord)]

/-- src/app.py lines 100-108: when the user's assigned list is empty,
compute the contiguous block of at most 100 sentence indices from the
user's zero-based position in the store's key enumeration order, freeze
it into the record, and save.  list(range(start_idx, end_idx)) is
List.range' start_idx (end_idx - start_idx) (empty when end ≤ start). -/
def assignStep (sentences : List String) (store : Store) (u : String) : Store :=
  let store1 := ensureUser store u
  let user_data := (dictGet store1 u).getD emptyRecord
  if user_data.assigned = [] then
    let all_users := store1.map Prod.fst
    let user_index := listIndexOf u all_users
    let start_idx := user_index * 100
    let end_idx := min (start_idx + 100) sentences.length
    dictSet store1 u { user_data with assigned := List.range' start_idx (end_idx - start_idx) }
  else
    store1

/-- Python true division, which raises (modelled as none) on a zero
divisor. -/
def pyDiv (a b : ℚ) : Option ℚ :=
  if b = 0 then none else some (a / b)

/-- What the Translate view shows after its progress line. -/
inductive TranslateView where
  | completed
  | prompt (sentenceIdx : Nat) (sentence : String)
deriving DecidableEq

/-- src/app.py lines 110-125: the progress line divides
translated_count/total_assigned BEFORE the completion check at line 119;
none models an uncaught exception (ZeroDivisionError when the assigned
list is empty, IndexError when a stale sentence index is past the end of
the freshly fetched dataset). -/
def renderTranslate (sentences : List String) (r : Record) : Option TranslateView :=
  match pyDiv (r.translations.length : ℚ) (r.assigned.length : ℚ) with
  | none => none
  | some _ =>
    if r.assigned.length ≤ r.index then
      some TranslateView.completed
    else
      match r.assigned.get? r.index with
      | none => none
      | some sentence_idx =>
        match sentences.get? sentence_idx with
        | none => none
        | some sentence => some (TranslateView.prompt sentence_idx sentence)

/-- translation_page (src/app.py lines 84-125): one Translate-view visit.
Returns the store after the lazy assignment step (persisted at line 108)
together with the rendered view; a none view means the render raised
after the store was already saved. -/
def translation_page (sentences : List String) (store : Store) (u : String) :
    Store × Option TranslateView :=
  let store1 := assignStep sentences store u
  (store1, renderTranslate sentences ((dictGet store1 u).getD emptyRecord))

/-- The Submit-button branch of translation_page (src/app.py lines
130-147).  On the Streamlit rerun that delivers the click, the page
replays lines 84-125 first, so the assignment step runs before the
button handler; the store is returned as already saved when the run
raises before the handler (empty assignment or stale index) or when the
submitted text strips to empty (the blocked-validation branch writes
nothing). -/
def submitTranslation (sentences : List String) (store : Store)
    (u text ts : String) : Store :=
  let store1 := assignStep sentences store u
  let user_data := (dictGet store1 u).getD emptyRecord
  if user_data.index < user_data.assigned.length then
    match user_data.assigned.get? user_data.index with
    | none => store1
    | some sentence_idx =>
      match sentences.get? sentence_idx with
      | none => store1
      | some sentence =>
        if pyStrip text = "" then store1
        else
          dictSet store1 u
            { user_data with
              translations := dictSet user_data.translations (toString sentence_idx)
                { english := sentence, translation := pyStrip text, timestamp := ts }
              index := user_data.index + 1 }
  else store1

/-- The Save branch of metadata_page (src/app.py lines 52-74): overwrite
the metadata field of the user's record and save the store.  The
absent-user default dict is modelled as emptyRecord, the record a
metadata-only entry reloads as via fixRecord on every later access. -/
def metadata_page (store : Store) (u : String) (m : Metadata) : Store :=
  let user_data := (dictGet store u).getD emptyRecord
  dictSet store u { user_data with metadata := some m }

/-- round(x, 2) on the exact rational value: round half to even at two
decimal places. -/
def pyRound2 (q : ℚ) : ℚ :=
  let s := q * 100
  let f := ⌊s⌋
  let frac := s - (f : ℚ)
  let n : ℤ :=
    if frac < 1/2 then f
    else if 1/2 < frac then f + 1
    else if f % 2 = 0 then f else f + 1
  (n : ℚ) / 100

/-- admin_page line 187: the per-user progress percentage,
round((len(translations)/len(assigned))*100, 2) if assigned else 0;
none would model a ZeroDivisionError reaching the page. -/
def adminProgressPct (translations : List (String × TransEntry))
    (assigned : List Nat) : Option ℚ :=
  if assigned = [] then some 0
  else (pyDiv (translations.length : ℚ) (assigned.length : ℚ)).map fun q => pyRound2 (q * 100)

/-- The store-mutating interactions of the app. -/
inductive Op where
  | metaSave (u : String) (m : Metadata)
  | visit (sentences : List String) (u : String)
  | submit (sentences : List String) (u : String) (text ts : String)

/-- Effect of one interaction on the persisted store. -/
def applyOp : Op → Store → Store
  | Op.metaSave u m, s => metadata_page s u m
  | Op.visit sentences u, s => (translation_page sentences s u).1
  | Op.submit sentences u text ts, s => submitTranslation sentences s u text ts

/-- Stores reachable from a fresh deployment (no progress file yet). -/
inductive Reachable : Store → Prop where
  | init : Reachable []
  | step (op : Op) {s : Store} : Reachable s → Reachable (applyOp op s)

/-- The user's zero-based position in the store's key enumeration order
at assignment time, the new record already appended (line 102-103). -/
def userPosition (store : Store) (u : String) : Nat :=
  listIndexOf u ((ensureUser store u).map Prod.fst)

/-! Association-list (Python dict) lemmas. -/

theorem dictGet_dictSet_self {α : Type} (l : List (String × α)) (u : String) (v : α) :
    dictGet (dictSet l u v) u = some v := by
  induction l with
  | nil => simp [dictGet, dictSet]
  | cons p rest ih =>
    obtain ⟨k, w⟩ := p
    by_cases h : k = u
    · simp [dictGet, dictSet, h]
    · simp [dictGet, dictSet, h, ih]

theorem dictGet_dictSet_ne {α : Type} (l : List (String × α)) (u u' : String) (v : α)
    (h : u' ≠ u) : dictGet (dictSet l u v) u' = dictGet l u' := by
  induction l with
  | nil => simp [dictGet, dictSet, Ne.symm h]
  | cons p rest ih =>
    obtain ⟨k, w⟩ := p
    by_cases hk : k = u
    · subst hk
      simp [dictGet, dictSet, Ne.symm h]
    · simp [dictGet, dictSet, hk, ih]

theorem dictSet_length {α : Type} (l : List (String × α)) (u : String) (v : α) :
    (dictSet l u v).length =
      if (dictGet l u).isSome then l.length else l.length + 1 := by
  induction l with
  | nil => simp [dictGet, dictSet]
  | cons p rest ih =>
    obtain ⟨k, w⟩ := p
    by_cases hk : k = u
    · simp [dictGet, dictSet, hk]
    · by_cases hs : (dictGet rest u).isSome
      · simp [dictGet, dictSet, hk, hs, ih]
      · simp [dictGet, dictSet, hk, hs, ih]

theorem dictGet_append_left {α : Type} (l m : List (String × α)) (u : String) (r : α)
    (h : dictGet l u = some r) : dictGet (l ++ m) u = some r := by
  induction l with
  | nil => simp [dictGet] at h
  | cons p rest ih =>
    obtain ⟨k, w⟩ := p
    by_cases hk : k = u
    · simp only [dictGet, hk, if_pos] at h
      simp [dictGet, hk, h, List.cons_append]
    · simp only [dictGet, hk, if_neg] at h
      simp [dictGet, hk, ih h, List.cons_append]

theorem dictGet_append_right {α : Type} (l m : List (String × α)) (u : String)
    (h : dictGet l u = none) : dictGet (l ++ m) u = dictGet m u := by
  induction l with
  | nil => simp
  | cons p rest ih =>
    obtain ⟨k, w⟩ := p
    by_cases hk : k = u
    · simp [dictGet, hk] at h
    · simp only [dictGet, hk, if_neg] at h
      simp [dictGet, hk, ih h, List.cons_append]

theorem dictGet_map {α β : Type} (f : α → β) (l : List (String × α)) (u : String) :
    dictGet (l.map fun p => (p.1, f p.2)) u = (dictGet l u).map f := by
  induction l with
  | nil => simp [dictGet]
  | cons p rest ih =>
    obtain ⟨k, w⟩ := p
    by_cases hk : k = u <;> simp [dictGet, hk, ih]

/-! ensureUser and assignStep characterizations. -/

theorem ensureUser_of_some {store : Store} {u : String} {r : Record}
    (h : dictGet store u = some r) : ensureUser store u = store := by
  simp [ensureUser, h]

theorem ensureUser_get_self (store : Store) (u : String) :
    dictGet (ensureUser store u) u = some ((dictGet store u).getD emptyRecord) := by
  cases h : dictGet store u with
  | some r => simp [ensureUser, h]
  | none =>
    simp only [ensureUser, h, Option.isSome_none, Bool.false_eq_true, if_false, Option.getD_none]
    rw [dictGet_append_right _ _ _ h]
    simp [dictGet]

theorem ensureUser_get_of_some {store : Store} {u' : String} {r : Record}
    (h : dictGet store u' = some r) (u : String) :
    dictGet (ensureUser store u) u' = some r := by
  cases hg : dictGet store u with
  | some w => simp [ensureUser, hg, h]
  | none =>
    simp only [ensureUser, hg, Option.isSome_none, Bool.false_eq_true, if_false]
    exact dictGet_append_left _ _ _ _ h

theorem assignStep_eq_nil (sentences : List String) (store : Store) (u : String)
    (ha : ((dictGet store u).getD emptyRecord).assigned = []) :
    assignStep sentences store u = dictSet (ensureUser store u) u
      { (dictGet store u).getD emptyRecord with
        assigned := List.range' (userPosition store u * 100)
          (min (userPosition store u * 100 + 100) sentences.length
            - userPosition store u * 100) } := by
  simp only [assignStep, userPosition]
  rw [ensureUser_get_self]
  simp [ha]

theorem assignStep_eq_not_nil (sentences : List String) (store : Store) (u : String)
    (ha : ((dictGet store u).getD emptyRecord).assigned ≠ []) :
    assignStep sentences store u = ensureUser store u := by
  simp only [assignStep]
  rw [ensureUser_get_self]
  simp [ha]

theorem assignStep_of_ne_nil {store : Store} {u : String} {r : Record}
    (h : dictGet store u = some r) (ha : r.assigned ≠ []) (sentences : List String) :
    assignStep sentences store u = store := by
  have ha' : ((dictGet store u).getD emptyRecord).assigned ≠ [] := by
    rw [h]; simpa using ha
  rw [assignStep_eq_not_nil sentences store u ha']
  exact ensureUser_of_some h

theorem translation_page_fst (sentences : List String) (store : Store) (u : String) :
    (translation_page sentences store u).1 = assignStep sentences store u := rfl

theorem assignStep_frame (sentences : List String) (store : Store) (u2 u : String)
    (r : Record) (h : dictGet store u = some r) :
    ∃ r', dictGet (assignStep sentences store u2) u = some r' ∧
      r'.translations = r.translations ∧ r'.metadata = r.metadata ∧
      r'.index = r.index ∧ ((u ≠ u2 ∨ r.assigned ≠ []) → r' = r) := by
  by_cases ha : ((dictGet store u2).getD emptyRecord).assigned = []
  · rw [assignStep_eq_nil sentences store u2 ha]
    by_cases he : u = u2
    · subst he
      have hg : (dictGet store u).getD emptyRecord = r := by rw [h]; rfl
      rw [hg] at ha ⊢
      refine ⟨_, dictGet_dictSet_self _ _ _, rfl, rfl, rfl, ?_⟩
      intro hor
      rcases hor with hne | hassigned
      · exact absurd rfl hne
      · exact absurd ha hassigned
    · rw [dictGet_dictSet_ne _ _ _ _ he, ensureUser_get_of_some h u2]
      exact ⟨r, rfl, rfl, rfl, rfl, fun _ => rfl⟩
  · rw [assignStep_eq_not_nil sentences store u2 ha]
    have hu : dictGet (ensureUser store u2) u = some r := by
      by_cases he : u = u2
      · subst he
        rw [ensureUser_get_self, h]
        rfl
      · exact ensureUser_get_of_some h u2
    exact ⟨r, hu, rfl, rfl, rfl, fun _ => rfl⟩

theorem metadata_page_frame (store : Store) (u2 : String) (m : Metadata)
    (u : String) (r : Record) (h : dictGet store u = some r) :
    ∃ r', dictGet (metadata_page store u2 m) u = some r' ∧
      r'.translations = r.translations ∧ r'.assigned = r.assigned ∧
      r'.index = r.index ∧ (u ≠ u2 → r' = r) ∧ (u = u2 → r'.metadata = some m) := by
  simp only [metadata_page]
  by_cases he : u = u2
  · subst he
    rw [h]
    simp only [Option.getD_some]
    exact ⟨_, dictGet_dictSet_self _ _ _, rfl, rfl, rfl,
      fun hne => absurd rfl hne, fun _ => rfl⟩
  · rw [dictGet_dictSet_ne _ _ _ _ he]
    exact ⟨r, h, rfl, rfl, rfl, fun _ => rfl, fun he2 => absurd he2 he⟩

theorem submitTranslation_frame_ne (sentences : List String) (store : Store)
    (u2 text ts u : String) (r : Record) (h : dictGet store u = some r)
    (hne : u ≠ u2) :
    dictGet (submitTranslation sentences store u2 text ts) u = some r := by
  obtain ⟨r2, hr2, -, -, -, hid⟩ := assignStep_frame sentences store u2 u r h
  have hstep : dictGet (assignStep sentences store u2) u = some r := by
    rw [hr2, hid (Or.inl hne)]
  simp only [submitTranslation]
  split
  · split
    · exact hstep
    · split
      · exact hstep
      · split
        · exact hstep
        · rw [dictGet_dictSet_ne _ _ _ _ hne]; exact hstep
  · exact hstep

theorem submitTranslation_self_assigned (sentences : List String) (store : Store)
    (u text ts : String) (r : Record) (h : dictGet store u = some r)
    (ha : r.assigned ≠ []) :
    ∃ r', dictGet (submitTranslation sentences store u text ts) u = some r' ∧
      r'.assigned = r.assigned ∧ r'.metadata = r.metadata := by
  have hstep := assignStep_of_ne_nil h ha sentences
  simp only [submitTranslation]
  rw [hstep, h]
  simp only [Option.getD_some]
  split
  · split
    · exact ⟨r, h, rfl, rfl⟩
    · split
      · exact ⟨r, h, rfl, rfl⟩
      · split
        · exact ⟨r, h, rfl, rfl⟩
        · exact ⟨_, dictGet_dictSet_self _ _ _, rfl, rfl⟩
  · exact ⟨r, h, rfl, rfl⟩

/-! The store invariant: cursor bounded by assignment length, assignment
length bounded by 100. -/

def StoreInv (store : Store) : Prop :=
  ∀ u r, dictGet store u = some r →
    r.index ≤ r.assigned.length ∧ r.assigned.length ≤ 100

theorem storeInv_nil : StoreInv [] := by
  intro u r h
  simp [dictGet] at h

theorem storeInv_getD {store : Store} (hinv : StoreInv store) (u : String) :
    ((dictGet store u).getD emptyRecord).index
        ≤ ((dictGet store u).getD emptyRecord).assigned.length ∧
      ((dictGet store u).getD emptyRecord).assigned.length ≤ 100 := by
  cases hg : dictGet store u with
  | none => simp [emptyRecord]
  | some w => simpa using hinv u w hg

theorem storeInv_dictSet {store : Store} (hinv : StoreInv store) {u : String}
    {r : Record} (hr : r.index ≤ r.assigned.length ∧ r.assigned.length ≤ 100) :
    StoreInv (dictSet store u r) := by
  intro u' r' h'
  by_cases he : u' = u
  · subst he
    rw [dictGet_dictSet_self] at h'
    cases h'
    exact hr
  · rw [dictGet_dictSet_ne _ _ _ _ he] at h'
    exact hinv u' r' h'

theorem storeInv_ensureUser {store : Store} (hinv : StoreInv store) (u : String) :
    StoreInv (ensureUser store u) := by
  intro u' r' h'
  cases hg0 : dictGet store u with
  | some w =>
    simp only [ensureUser, hg0, Option.isSome_some, if_true] at h'
    exact hinv u' r' h'
  | none =>
    simp only [ensureUser, hg0, Option.isSome_none, Bool.false_eq_true, if_false] at h'
    cases hg : dictGet store u' with
    | some w =>
      rw [dictGet_append_left _ _ _ _ hg] at h'
      cases h'
      exact hinv u' _ hg
    | none =>
      rw [dictGet_append_right _ _ _ hg] at h'
      by_cases he : u = u'
      · simp only [dictGet, he, if_pos] at h'
        injection h' with h2
        subst h2
        simp [emptyRecord]
      · simp [dictGet, he] at h'

theorem storeInv_assignStep (sentences : List String) {store : Store}
    (hinv : StoreInv store) (u : String) :
    StoreInv (assignStep sentences store u) := by
  have h1 : StoreInv (ensureUser store u) := storeInv_ensureUser hinv u
  by_cases ha : ((dictGet store u).getD emptyRecord).assigned = []
  · rw [assignStep_eq_nil sentences store u ha]
    apply storeInv_dictSet h1
    have hidx : ((dictGet store u).getD emptyRecord).index = 0 := by
      have := (storeInv_getD hinv u).1
      rw [ha] at this
      simpa using this
    constructor
    · simp [hidx]
    · simp only [List.length_range']
      omega
  · rw [assignStep_eq_not_nil sentences store u ha]
    exact h1

theorem storeInv_metadata_page {store : Store} (hinv : StoreInv store)
    (u : String) (m : Metadata) :
    StoreInv (metadata_page store u m) := by
  simp only [metadata_page]
  apply storeInv_dictSet hinv
  simpa using storeInv_getD hinv u

theorem storeInv_submitTranslation (sentences : List String) {store : Store}
    (hinv : StoreInv store) (u text ts : String) :
    StoreInv (submitTranslation sentences store u text ts) := by
  have h1 : StoreInv (assignStep sentences store u) := storeInv_assignStep sentences hinv u
  simp only [submitTranslation]
  split
  next hlt =>
    split
    next _heq => exact h1
    next sentence_idx _heq =>
      split
      next _heq2 => exact h1
      next sentence _heq2 =>
        split
        next _hts => exact h1
        next _hts =>
          apply storeInv_dictSet h1
          exact ⟨hlt, (storeInv_getD h1 u).2⟩
  next _hge => exact h1

theorem storeInv_reachable {store : Store} (h : Reachable store) : StoreInv store := by
  induction h with
  | init => exact storeInv_nil
  | step op h ih =>
    cases op with
    | metaSave u m => exact storeInv_metadata_page ih u m
    | visit sentences u => exact storeInv_assignStep sentences ih u
    | submit sentences u text ts => exact storeInv_submitTranslation sentences ih u text ts

/-! Claim theorems. -/

/-- C1: for every user whose record has an empty assigned list at the
time of a Translate-view visit (the record created just before
assignment if absent), the assignment computed and stored is exactly the
contiguous index range from 100·p up to min(100·p + 100, sentence count),
where p (userPosition) is the user's zero-based position in the store's
key enumeration order with the user's own record included; hence exactly
min(100, sentence_count - 100·p) indices when 100·p < sentence_count. -/
theorem C1_first_assignment (sentences : List String) (store : Store) (u : String)
    (h : ∀ r, dictGet store u = some r → r.assigned = []) :
    ∃ r', dictGet (translation_page sentences store u).1 u = some r' ∧
      r'.assigned = List.range' (100 * userPosition store u)
        (min (100 * userPosition store u + 100) sentences.length
          - 100 * userPosition store u) ∧
      (100 * userPosition store u < sentences.length →
        r'.assigned.length = min 100 (sentences.length - 100 * userPosition store u)) := by
  have ha : ((dictGet store u).getD emptyRecord).assigned = [] := by
    cases hg : dictGet store u with
    | none => simp [emptyRecord]
    | some r => simpa using h r hg
  rw [translation_page_fst, assignStep_eq_nil sentences store u ha,
    Nat.mul_comm 100 (userPosition store u)]
  refine ⟨_, dictGet_dictSet_self _ _ _, rfl, ?_⟩
  intro hlt
  simp only [List.length_range']
  omega

/-- Witness for C1 at a concrete input: a fresh store, one sentence,
first visit of user A, who receives the range [0, 1). -/
theorem C1_first_assignment_witness :
    dictGet (translation_page ["s"] [] "A").1 "A" =
        some { translations := [], metadata := none, assigned := [0], index := 0 } ∧
      ({ translations := [], metadata := none, assigned := [0], index := 0 } : Record).assigned =
        List.range' (100 * userPosition [] "A")
          (min (100 * userPosition [] "A" + 100) (["s"].length)
            - 100 * userPosition [] "A") ∧
      (100 * userPosition [] "A" < (["s"].length) →
        ({ translations := [], metadata := none, assigned := [0], index := 0 } : Record).assigned.length =
          min 100 ((["s"].length) - 100 * userPosition [] "A") ) := by
  obtain ⟨r', h1, h2, h3⟩ :=
    C1_first_assignment ["s"] [] "A" (by intro r hr; simp [dictGet] at hr)
  have hc : dictGet (translation_page ["s"] [] "A").1 "A" =
      some { translations := [], metadata := none, assigned := [0], index := 0 } := by decide
  rw [hc] at h1
  injection h1 with h1
  subst h1
  exact ⟨hc, h2, h3⟩

/-- C2 (code behavior at the failing input): with one existing user A
(assigned [0]) and a one-sentence dataset, user B's first Translate
visit stores an empty assigned list, as the claim says; but instead of
showing the completion state the render raises: the progress line
(src/app.py line 117) computes translated_count/total_assigned BEFORE
the completion check at line 119, and 0/0 is a ZeroDivisionError
(modelled here as a none view).  The completion branch right below, and
the guarded percentage in admin_page line 187, show the intended
behavior; the unguarded division is a slip in the code. -/
theorem C2_divzero :
    (translation_page ["s0"]
        [("A", { translations := [], metadata := none, assigned := [0], index := 0 })] "B").1 =
      [("A", { translations := [], metadata := none, assigned := [0], index := 0 }),
       ("B", { translations := [], metadata := none, assigned := [], index := 0 })] ∧
    (translation_page ["s0"]
        [("A", { translations := [], metadata := none, assigned := [0], index := 0 })] "B").2 =
      none :=
  ⟨by decide, by decide⟩

/-- Counterexample to C3 as stated: submitting the text with surrounding
whitespace stores the stripped text, so translations[str(idx)] does not
hold the submitted text verbatim. -/
theorem C3_strip_counterexample :
    dictGet (submitTranslation ["hello"]
        [("A", { translations := [], metadata := none, assigned := [0], index := 0 })]
        "A" " bonjour " "t0") "A" =
      some { translations := [("0", { english := "hello", translation := "bonjour", timestamp := "t0" })],
             metadata := none, assigned := [0], index := 1 } ∧
    ("bonjour" : String) ≠ " bonjour " :=
  ⟨by decide, by decide⟩

/-- C3 (amended): for every user with cursor index < len(assigned) who
submits a translation text that is non-empty after stripping whitespace
(and whose current sentence index is within the dataset), after the
submission translations[str(idx)] holds the submitted text stripped of
leading/trailing whitespace together with the source-sentence snapshot
and the timestamp, the cursor has increased by exactly 1, the assignment
is unchanged, and an existing entry for str(idx) is overwritten, not
duplicated (other keys unchanged; the map grows only when the key was
absent). -/
theorem C3_submission (sentences : List String) (store : Store) (u text ts : String)
    (r : Record) (idx : Nat) (s : String) (k : String)
    (hr : dictGet store u = some r) (hidx : r.index < r.assigned.length)
    (hgetidx : r.assigned.get? r.index = some idx)
    (hsent : sentences.get? idx = some s)
    (htext : pyStrip text ≠ "") (hk : k ≠ toString idx) :
    ∃ r', dictGet (submitTranslation sentences store u text ts) u = some r' ∧
      dictGet r'.translations (toString idx) =
        some { english := s, translation := pyStrip text, timestamp := ts } ∧
      r'.index = r.index + 1 ∧
      r'.assigned = r.assigned ∧
      dictGet r'.translations k = dictGet r.translations k ∧
      r'.translations.length =
        (if (dictGet r.translations (toString idx)).isSome then r.translations.length
         else r.translations.length + 1) := by
  have ha : r.assigned ≠ [] := by
    intro h0
    rw [h0] at hidx
    simp at hidx
  have hstep := assignStep_of_ne_nil hr ha sentences
  simp only [submitTranslation]
  rw [hstep, hr]
  simp only [Option.getD_some, hgetidx, hsent, hidx, if_true, htext, if_false]
  refine ⟨_, dictGet_dictSet_self _ _ _, ?_, rfl, rfl, ?_, ?_⟩
  · exact dictGet_dictSet_self _ _ _
  · exact dictGet_dictSet_ne _ _ _ _ hk
  · exact dictSet_length _ _ _

/-- Witness for C3 at a concrete input: user A submits "bonjour" for the
first (and only) assigned sentence. -/
theorem C3_submission_witness :
    dictGet (submitTranslation ["hello"]
        [("A", { translations := [], metadata := none, assigned := [0], index := 0 })]
        "A" "bonjour" "t") "A" =
      some { translations := [("0", { english := "hello", translation := "bonjour", timestamp := "t" })],
             metadata := none, assigned := [0], index := 1 } ∧
    dictGet ({ translations := [("0", { english := "hello", translation := "bonjour", timestamp := "t" })],
               metadata := none, assigned := [0], index := 1 } : Record).translations (toString 0) =
      some { english := "hello", translation := pyStrip "bonjour", timestamp := "t" } ∧
    ({ translations := [("0", { english := "hello", translation := "bonjour", timestamp := "t" })],
       metadata := none, assigned := [0], index := 1 } : Record).index =
      ({ translations := [], metadata := none, assigned := [0], index := 0 } : Record).index + 1 := by
  obtain ⟨r', h1, h2, h3, h4, h5, h6⟩ :=
    C3_submission ["hello"]
      [("A", { translations := [], metadata := none, assigned := [0], index := 0 })]
      "A" "bonjour" "t"
      { translations := [], metadata := none, assigned := [0], index := 0 }
      0 "hello" "z" (by decide) (by decide) (by decide) (by decide) (by decide) (by decide)
  have hc : dictGet (submitTranslation ["hello"]
      [("A", { translations := [], metadata := none, assigned := [0], index := 0 })]
      "A" "bonjour" "t") "A" =
      some { translations := [("0", { english := "hello", translation := "bonjour", timestamp := "t" })],
             metadata := none, assigned := [0], index := 1 } := by decide
  rw [hc] at h1
  injection h1 with h1
  subst h1
  exact ⟨hc, h2, h3⟩

/-- C8: a submission whose text is empty after stripping is blocked: the
user's translations, cursor and the persisted store are all unchanged
(the warning branch at src/app.py lines 131-132 writes nothing).  The
hypotheses say the user's record exists with a computed assignment,
which holds whenever the submission UI was reachable. -/
theorem C8_empty_text_blocked (sentences : List String) (store : Store)
    (u text ts : String) (r : Record) (hr : dictGet store u = some r)
    (ha : r.assigned ≠ []) (htext : pyStrip text = "") :
    submitTranslation sentences store u text ts = store := by
  have hstep := assignStep_of_ne_nil hr ha sentences
  simp only [submitTranslation]
  rw [hstep, hr]
  simp only [Option.getD_some]
  split
  next hlt =>
    split
    next => rfl
    next sentence_idx heq =>
      split
      next => rfl
      next sentence heq2 => rfl
  next => rfl

/-- Witness for C8 at a concrete input: a whitespace-only submission
leaves the store exactly as it was. -/
theorem C8_empty_text_blocked_witness :
    submitTranslation ["s"]
        [("A", { translations := [], metadata := none, assigned := [0], index := 0 })]
        "A" "   " "t" =
      [("A", { translations := [], metadata := none, assigned := [0], index := 0 })] :=
  C8_empty_text_blocked ["s"]
    [("A", { translations := [], metadata := none, assigned := [0], index := 0 })]
    "A" "   " "t"
    { translations := [], metadata := none, assigned := [0], index := 0 }
    (by decide) (by decide) (by decide)

/-- C5: every record looked up from a loaded progress file has any of the
four missing fields defaulted in place (translations to the empty map,
metadata to the empty dict, assigned to the empty list, index to 0),
while fields that are present are returned unchanged; loading is a total
function, so no missing-key failure is possible. -/
theorem C5_load_defaults (file : StoredFile) (u : String) (d : StoredRecord)
    (h : dictGet file u = some d) :
    ∃ r, dictGet (load_user_progress (some file)) u = some r ∧
      (d.translations = none → r.translations = []) ∧
      (d.translations ≠ none → some r.translations = d.translations) ∧
      (d.metadata = none → r.metadata = none) ∧
      (d.metadata ≠ none → some r.metadata = d.metadata) ∧
      (d.assigned = none → r.assigned = []) ∧
      (d.assigned ≠ none → some r.assigned = d.assigned) ∧
      (d.index = none → r.index = 0) ∧
      (d.index ≠ none → some r.index = d.index) := by
  refine ⟨fixRecord d, ?_, ?_, ?_, ?_, ?_, ?_, ?_, ?_, ?_⟩
  · simp only [load_user_progress]
    rw [dictGet_map fixRecord file u, h]
    rfl
  · intro h0; simp [fixRecord, h0]
  · intro h0
    cases ht : d.translations with
    | none => exact absurd ht h0
    | some t => simp [fixRecord, ht]
  · intro h0; simp [fixRecord, h0]
  · intro h0
    cases ht : d.metadata with
    | none => exact absurd ht h0
    | some m => simp [fixRecord, ht]
  · intro h0; simp [fixRecord, h0]
  · intro h0
    cases ht : d.assigned with
    | none => exact absurd ht h0
    | some a => simp [fixRecord, ht]
  · intro h0; simp [fixRecord, h0]
  · intro h0
    cases ht : d.index with
    | none => exact absurd ht h0
    | some i => simp [fixRecord, ht]

/-- Witness for C5 at a concrete input: a record with only the assigned
field present loads with translations, metadata and index defaulted and
assigned unchanged. -/
theorem C5_load_defaults_witness :
    dictGet (load_user_progress (some [("A",
        { translations := none, metadata := some none, assigned := some [5], index := none })])) "A" =
        some { translations := [], metadata := none, assigned := [5], index := 0 } ∧
      ({ translations := [], metadata := none, assigned := [5], index := 0 } : Record).translations = [] ∧
      some ({ translations := [], metadata := none, assigned := [5], index := 0 } : Record).assigned =
        ({ translations := none, metadata := some none, assigned := some [5],
           index := none } : StoredRecord).assigned ∧
      ({ translations := [], metadata := none, assigned := [5], index := 0 } : Record).index = 0 := by
  obtain ⟨r, h1, h2, h3, h4, h5, h6, h7, h8, h9⟩ :=
    C5_load_defaults
      [("A", { translations := none, metadata := some none, assigned := some [5], index := none })]
      "A" { translations := none, metadata := some none, assigned := some [5], index := none }
      (by decide)
  have hc : dictGet (load_user_progress (some [("A",
      { translations := none, metadata := some none, assigned := some [5], index := none })])) "A" =
      some { translations := [], metadata := none, assigned := [5], index := 0 } := by decide
  rw [hc] at h1
  injection h1 with h1
  subst h1
  exact ⟨hc, h2 rfl, h7 (by decide), h8 rfl⟩

/-- Helper for C6: serializing a defaulted record gives back the stored
record whenever all four fields were present. -/
theorem storeRecord_fixRecord {d : StoredRecord} (hd : wellFormedRec d) :
    storeRecord (fixRecord d) = d := by
  simp only [wellFormedRec] at hd
  obtain ⟨h1, h2, h3, h4⟩ := hd
  cases d with
  | mk dt dm da di =>
    cases dt with
    | none => simp at h1
    | some t =>
      cases dm with
      | none => simp at h2
      | some m =>
        cases da with
        | none => simp at h3
        | some a =>
          cases di with
          | none => simp at h4
          | some i => simp [storeRecord, fixRecord]

/-- C6: loading a well-formed store (every record already has all four
fields) and immediately saving it without mutation reproduces the stored
contents field for field. -/
theorem C6_roundtrip (file : StoredFile) (h : ∀ p ∈ file, wellFormedRec p.2) :
    save_user_progress (load_user_progress (some file)) = file := by
  induction file with
  | nil => rfl
  | cons p rest ih =>
    obtain ⟨u, d⟩ := p
    have hd : wellFormedRec d := h (u, d) (List.mem_cons_self _ _)
    have hrest : ∀ q ∈ rest, wellFormedRec q.2 := fun q hq => h q (List.mem_cons_of_mem _ hq)
    have ht := ih hrest
    simp only [load_user_progress, save_user_progress, List.map_cons] at ht ⊢
    rw [ht, storeRecord_fixRecord hd]

/-- Witness for C6 at a concrete input: a one-user well-formed store
round-trips unchanged. -/
theorem C6_roundtrip_witness :
    save_user_progress (load_user_progress (some [("A",
        { translations := some [], metadata := some none, assigned := some [0], index := some 0 })])) =
      [("A", { translations := some [], metadata := some none, assigned := some [0], index := some 0 })] :=
  C6_roundtrip
    [("A", { translations := some [], metadata := some none, assigned := some [0], index := some 0 })]
    (by
      intro p hp
      rw [List.mem_singleton] at hp
      subst hp
      simp [wellFormedRec])

/-- C7: the admin per-user progress percentage is 0 for a record with an
empty assigned list, and the guarded computation never reaches the
division (never raises): the result is always defined. -/
theorem C7_admin_progress (translations : List (String × TransEntry)) (assigned : List Nat) :
    (assigned = [] → adminProgressPct translations assigned = some 0) ∧
    (adminProgressPct translations assigned).isSome := by
  constructor
  · intro h
    simp [adminProgressPct, h]
  · by_cases h : assigned = []
    · simp [adminProgressPct, h]
    · have hlen : (assigned.length : ℚ) ≠ 0 := by simpa using h
      simp [adminProgressPct, pyDiv, h, hlen]

/-- Witness for C7 at a concrete input: the empty record reports 0% and
the computation is defined. -/
theorem C7_admin_progress_witness :
    adminProgressPct [] [] = some 0 ∧ (adminProgressPct [] []).isSome :=
  ⟨(C7_admin_progress [] []).1 rfl, (C7_admin_progress [] []).2⟩

/-- C10: saving metadata for user u only touches the metadata field of
u's record: every other field of an existing record for u, and every
other user's record, are unchanged in the store written back. -/
theorem C10_metadata_save_frame (store : Store) (u : String) (m : Metadata)
    (u' : String) (r : Record) :
    (u' ≠ u → dictGet (metadata_page store u m) u' = dictGet store u') ∧
    (dictGet store u = some r →
      ∃ r', dictGet (metadata_page store u m) u = some r' ∧ r'.metadata = some m ∧
        r'.translations = r.translations ∧ r'.assigned = r.assigned ∧ r'.index = r.index) := by
  constructor
  · intro hne
    simp only [metadata_page]
    exact dictGet_dictSet_ne _ _ _ _ hne
  · intro h
    obtain ⟨r', h1, h2, h3, h4, h5, h6⟩ := metadata_page_frame store u m u r h
    exact ⟨r', h1, h6 rfl, h2, h3, h4⟩

/-- A sample metadata value for concrete witnesses. -/
def sampleMeta : Metadata :=
  { name := "n", sex := "Male", age := 30, gmail := "g", country := "c" }

/-- Witness for C10 at a concrete input: saving metadata for A leaves B's
record untouched and only A's metadata field changes. -/
theorem C10_metadata_save_frame_witness :
    dictGet (metadata_page
        [("A", { translations := [], metadata := none, assigned := [1, 2], index := 1 }),
         ("B", { translations := [], metadata := none, assigned := [], index := 0 })]
        "A" sampleMeta) "B" =
      dictGet
        [("A", { translations := [], metadata := none, assigned := [1, 2], index := 1 }),
         ("B", { translations := [], metadata := none, assigned := [], index := 0 })] "B" ∧
    dictGet (metadata_page
        [("A", { translations := [], metadata := none, assigned := [1, 2], index := 1 }),
         ("B", { translations := [], metadata := none, assigned := [], index := 0 })]
        "A" sampleMeta) "A" =
      some { translations := [], metadata := some sampleMeta, assigned := [1, 2], index := 1 } := by
  obtain ⟨c1, c2⟩ := C10_metadata_save_frame
    [("A", { translations := [], metadata := none, assigned := [1, 2], index := 1 }),
     ("B", { translations := [], metadata := none, assigned := [], index := 0 })]
    "A" sampleMeta "B"
    { translations := [], metadata := none, assigned := [1, 2], index := 1 }
  have hc : dictGet (metadata_page
      [("A", { translations := [], metadata := none, assigned := [1, 2], index := 1 }),
       ("B", { translations := [], metadata := none, assigned := [], index := 0 })]
      "A" sampleMeta) "A" =
      some { translations := [], metadata := some sampleMeta, assigned := [1, 2], index := 1 } := by
    decide
  exact ⟨c1 (by decide), hc⟩

/-- C4: in every reachable store the cursor never exceeds the assigned
length; moreover a metadata save and a Translate visit leave every
existing record's cursor unchanged, so only accepted submissions (which
require cursor < length) advance it. -/
theorem C4_cursor_invariant (store : Store) (u2 : String) (m : Metadata)
    (sentences : List String) (u3 : String)
    (h : Reachable store) (u : String) (r : Record)
    (hr : dictGet store u = some r) :
    r.index ≤ r.assigned.length ∧
    (∃ r', dictGet (applyOp (Op.metaSave u2 m) store) u = some r' ∧ r'.index = r.index) ∧
    (∃ r', dictGet (applyOp (Op.visit sentences u3) store) u = some r' ∧ r'.index = r.index) := by
  refine ⟨(storeInv_reachable h u r hr).1, ?_, ?_⟩
  · obtain ⟨r', h1, h2, h3, h4, h5, h6⟩ := metadata_page_frame store u2 m u r hr
    exact ⟨r', h1, h4⟩
  · obtain ⟨r', h1, h2, h3, h4, h5⟩ := assignStep_frame sentences store u3 u r hr
    exact ⟨r', h1, h4⟩

/-- Witness for C4 at a concrete reachable store: after A's first visit,
A's cursor 0 is within the one assigned index, and a metadata save for B
and a second visit by A leave it at 0. -/
theorem C4_cursor_invariant_witness :
    ({ translations := [], metadata := none, assigned := [0], index := 0 } : Record).index ≤
      ({ translations := [], metadata := none, assigned := [0], index := 0 } : Record).assigned.length ∧
    dictGet (applyOp (Op.metaSave "B" sampleMeta) (applyOp (Op.visit ["s"] "A") [])) "A" =
      some { translations := [], metadata := none, assigned := [0], index := 0 } ∧
    dictGet (applyOp (Op.visit ["t"] "A") (applyOp (Op.visit ["s"] "A") [])) "A" =
      some { translations := [], metadata := none, assigned := [0], index := 0 } := by
  obtain ⟨h1, h2, h3⟩ :=
    C4_cursor_invariant (applyOp (Op.visit ["s"] "A") []) "B" sampleMeta ["t"] "A"
      (Reachable.step (Op.visit ["s"] "A") Reachable.init) "A"
      { translations := [], metadata := none, assigned := [0], index := 0 } (by decide)
  have hc2 : dictGet (applyOp (Op.metaSave "B" sampleMeta) (applyOp (Op.visit ["s"] "A") [])) "A" =
      some { translations := [], metadata := none, assigned := [0], index := 0 } := by decide
  have hc3 : dictGet (applyOp (Op.visit ["t"] "A") (applyOp (Op.visit ["s"] "A") [])) "A" =
      some { translations := [], metadata := none, assigned := [0], index := 0 } := by decide
  exact ⟨h1, hc2, hc3⟩

/-- Counterexample to C9 as stated: an assignment is NOT computed at most
once, and an empty computed assignment is not immutable.  User A's first
visit with an empty dataset computes and freezes assigned = []; since
the guard at src/app.py line 101 only tests emptiness, A's next visit
(the dataset re-fetched, now one sentence long) recomputes the
assignment, changing it to [0]. -/
theorem C9_reassignment_counterexample :
    dictGet (applyOp (Op.visit [] "A") []) "A" =
        some { translations := [], metadata := none, assigned := [], index := 0 } ∧
    dictGet (applyOp (Op.visit ["x"] "A") (applyOp (Op.visit [] "A") [])) "A" =
        some { translations := [], metadata := none, assigned := [0], index := 0 } ∧
    ([] : List Nat) ≠ [0] :=
  ⟨by decide, by decide, by decide⟩

/-- C9 (amended): in every reachable store every assigned list has length
at most 100; the assignment is recomputed on every Translate visit that
still finds it empty, but once a NON-empty assignment has been computed
no operation (metadata save, visit, submission, by any user) ever
changes it. -/
theorem C9_assigned_stability (store : Store) (op : Op) (h : Reachable store)
    (u : String) (r : Record) (hr : dictGet store u = some r) :
    r.assigned.length ≤ 100 ∧
    (r.assigned ≠ [] →
      ∃ r', dictGet (applyOp op store) u = some r' ∧ r'.assigned = r.assigned) := by
  refine ⟨(storeInv_reachable h u r hr).2, ?_⟩
  intro ha
  cases op with
  | metaSave u2 m =>
    obtain ⟨r', h1, h2, h3, h4, h5, h6⟩ := metadata_page_frame store u2 m u r hr
    exact ⟨r', h1, h3⟩
  | visit sentences u2 =>
    obtain ⟨r', h1, h2, h3, h4, h5⟩ := assignStep_frame sentences store u2 u r hr
    have he := h5 (Or.inr ha)
    subst he
    exact ⟨_, h1, rfl⟩
  | submit sentences u2 text ts =>
    by_cases he : u = u2
    · subst he
      obtain ⟨r', h1, h2, h3⟩ := submitTranslation_self_assigned sentences store u text ts r hr ha
      exact ⟨r', h1, h2⟩
    · exact ⟨r, submitTranslation_frame_ne sentences store u2 text ts u r hr he, rfl⟩

/-- Witness for C9 at a concrete reachable store: A's non-empty
assignment [0] has length at most 100 and survives a metadata save. -/
theorem C9_assigned_stability_witness :
    ({ translations := [], metadata := none, assigned := [0], index := 0 } : Record).assigned.length ≤ 100 ∧
    dictGet (applyOp (Op.metaSave "B" sampleMeta) (applyOp (Op.visit ["s"] "A") [])) "A" =
      some { translations := [], metadata := none, assigned := [0], index := 0 } ∧
    ({ translations := [], metadata := none, assigned := [0], index := 0 } : Record).assigned = [0] := by
  obtain ⟨h1, h2⟩ :=
    C9_assigned_stability (applyOp (Op.visit ["s"] "A") []) (Op.metaSave "B" sampleMeta)
      (Reachable.step (Op.visit ["s"] "A") Reachable.init) "A"
      { translations := [], metadata := none, assigned := [0], index := 0 } (by decide)
  obtain ⟨r', hr1, hr2⟩ := h2 (by decide)
  have hc : dictGet (applyOp (Op.metaSave "B" sampleMeta) (applyOp (Op.visit ["s"] "A") [])) "A" =
      some { translations := [], metadata := none, assigned := [0], index := 0 } := by decide
  rw [hc] at hr1
  injection hr1 with hr1
  subst hr1
  exact ⟨h1, hc, hr2⟩

end DataCuration
